import Mathlib

/-!
Verification of the `asciinum` numeral-system engine: alphabet (corpus)
construction, positional base conversion of unsigned 128-bit integers,
the CLI radix-argument parser, and ASCII-control trimming of byte slices.
All definitions are shallow embeddings of the Rust source
(`src/asciinum.rs`, `src/main.rs`); machine integers are modelled as `Nat`
(the source's `u128` values are bounded by `2 ^ 128` in the theorems).
-/

namespace Asciinum

/-- `SYMBOLS` constant from `src/asciinum.rs`. -/
def SYMBOLS : String := "!\"#$%&\x27()*+,-./:;<=>?@[\\]^_`\x7b|\x7d~"

/-- `SYMBOLS_UNIXSAFE` constant from `src/asciinum.rs` (excludes `/`). -/
def SYMBOLS_UNIXSAFE : String := "!\"#$%&\x27()*+,-.:;<=>?@[\\]^_`\x7b|\x7d~"

/-- `NUMBERS` constant from `src/asciinum.rs`. -/
def NUMBERS : String := "0123456789"

/-- `LETTERS_UPPERCASE` constant from `src/asciinum.rs`. -/
def LETTERS_UPPERCASE : String := "ABCDEFGHIJKLMNOPQRSTUVWXYZ"

/-- `LETTERS_LOWERCASE` constant from `src/asciinum.rs`. -/
def LETTERS_LOWERCASE : String := "abcdefghijklmnopqrstuvwxyz"

/-- `LETTERS_CONCAT` constant: `constcat::concat!(LETTERS_UPPERCASE, LETTERS_LOWERCASE)`. -/
def LETTERS_CONCAT : String := LETTERS_UPPERCASE ++ LETTERS_LOWERCASE

/-- `LETTERS_ORDERED` constant from `src/asciinum.rs`. -/
def LETTERS_ORDERED : String := "AaBbCcDdEeFfGgHhIiJjKkLlMmNnOoPpQqRrSsTtUuVvWwXxYyZz"

/-- `RadixSymbols` enum from `src/asciinum.rs`. -/
inductive RadixSymbols where
  | All
  | UnixSafe
  | Disabled
deriving DecidableEq

/-- `RadixNumbers` enum from `src/asciinum.rs`. -/
inductive RadixNumbers where
  | All
  | Disabled
deriving DecidableEq

/-- `RadixLetters` enum from `src/asciinum.rs`. -/
inductive RadixLetters where
  | Insensitive
  | Sensitive
  | SensitiveOrdered
deriving DecidableEq

/-- `RadixSettings` struct from `src/asciinum.rs`. -/
structure RadixSettings where
  symbols : RadixSymbols
  numbers : RadixNumbers
  letters : RadixLetters
deriving DecidableEq

/-- `RadixSettings::new`. -/
def RadixSettings.new (symbols : RadixSymbols) (numbers : RadixNumbers)
    (letters : RadixLetters) : RadixSettings :=
  ⟨symbols, numbers, letters⟩

/-- `RadixSettings::corpus`: concatenation of the selected symbol, number and
letter blocks, in that order. -/
def RadixSettings.corpus (s : RadixSettings) : String :=
  "" ++
    (match s.symbols with
      | RadixSymbols.All => SYMBOLS
      | RadixSymbols.UnixSafe => SYMBOLS_UNIXSAFE
      | RadixSymbols.Disabled => "") ++
    (match s.numbers with
      | RadixNumbers.All => NUMBERS
      | RadixNumbers.Disabled => "") ++
    (match s.letters with
      | RadixLetters.Insensitive => LETTERS_LOWERCASE
      | RadixLetters.Sensitive => LETTERS_CONCAT
      | RadixLetters.SensitiveOrdered => LETTERS_ORDERED)

/-- `BaseConvertIter` struct from `src/asciinum.rs`: `number` starts as `some`
and becomes `none` at the final step; `base` models the `NonZeroUsize` radix. -/
structure BaseConvertIter where
  number : Option Nat
  base : Nat
deriving DecidableEq

/-- `BaseConvertIter::new`. -/
def BaseConvertIter.new (number : Nat) (base : Nat) : BaseConvertIter :=
  ⟨some number, base⟩

/-- One call of `Iterator::next` for `BaseConvertIter`: returns the yielded
item (if any) together with the successor state. -/
def BaseConvertIter.next (it : BaseConvertIter) : Option Nat × BaseConvertIter :=
  match it.number with
  | some number =>
    if number < it.base then
      (some number, ⟨none, it.base⟩)
    else
      let left := number % it.base
      (some left, ⟨some ((number - left) / it.base), it.base⟩)
  | none => (none, it)

/-- Iterate `BaseConvertIter.next` a given number of times, keeping the state. -/
def BaseConvertIter.stepN : Nat → BaseConvertIter → BaseConvertIter
  | 0, it => it
  | k + 1, it => BaseConvertIter.stepN k it.next.2

/-- Drain the iterator into the list of yielded items (`Iterator::collect`),
bounded by a fuel parameter; draining stops as soon as `next` yields `none`. -/
def runIter : Nat → BaseConvertIter → List Nat
  | 0, _ => []
  | fuel + 1, it =>
    match it.next with
    | (none, _) => []
    | (some d, it2) => d :: runIter fuel it2

/-- The full digit stream of `BaseConvertIter::new(number, base)`, least
significant digit first.  A fuel of `number + 1` always drains the iterator
when `base ≥ 2` (proved below). -/
def baseConvertList (number : Nat) (base : Nat) : List Nat :=
  runIter (number + 1) (BaseConvertIter.new number base)

/-- `AsciiConverter` struct from `src/asciinum.rs`. -/
structure AsciiConverter where
  corpus : String
deriving DecidableEq

/-- `AsciiConverter::new`. -/
def AsciiConverter.new (settings : RadixSettings) : AsciiConverter :=
  ⟨settings.corpus⟩

/-- `AsciiConverter::convert`: extract base-`corpus.length` digits (least
significant first), map each digit to the corpus character at that index,
and reverse to most-significant-first order.  The corpora are ASCII, so the
source's byte length equals the character count used here; the `.expect` on
the corpus lookup is modelled by `List.getD` with an out-of-corpus default. -/
def AsciiConverter.convert (c : AsciiConverter) (decimal : Nat) : String :=
  let number : List Char :=
    (baseConvertList decimal c.corpus.length).map
      (fun digit => c.corpus.data.getD digit ' ')
  String.mk number.reverse

/-- Spec-side symbol block (from the spec's words): `All` is the exact
32-character punctuation set, `UnixSafe` is that set with `/` removed,
`Disabled` is empty. -/
def symbolsBlockSpec : RadixSymbols → String
  | RadixSymbols.All => "!\"#$%&\x27()*+,-./:;<=>?@[\\]^_`\x7b|\x7d~"
  | RadixSymbols.UnixSafe =>
      String.mk ("!\"#$%&\x27()*+,-./:;<=>?@[\\]^_`\x7b|\x7d~".data.filter (fun c => c ≠ '/'))
  | RadixSymbols.Disabled => ""

/-- Spec-side digit block: `All` is `0123456789`, `Disabled` is empty. -/
def numbersBlockSpec : RadixNumbers → String
  | RadixNumbers.All => "0123456789"
  | RadixNumbers.Disabled => ""

/-- Spec-side letter block: `Insensitive` is `a`..`z`, `Sensitive` is
`A`..`Z` followed by `a`..`z`, `SensitiveOrdered` is the interleaving
`AaBb...Zz`; built here from character ranges. -/
def lettersBlockSpec : RadixLetters → String
  | RadixLetters.Insensitive =>
      String.mk ((List.range 26).map (fun i => Char.ofNat (97 + i)))
  | RadixLetters.Sensitive =>
      String.mk ((List.range 26).map (fun i => Char.ofNat (65 + i)) ++
        (List.range 26).map (fun i => Char.ofNat (97 + i)))
  | RadixLetters.SensitiveOrdered =>
      String.mk (((List.range 26).map
        (fun i => [Char.ofNat (65 + i), Char.ofNat (97 + i)])).flatten)

/-- Decoding a converted string back to a number: map each character to its
index in the corpus and evaluate positionally (most significant first). -/
def decodeString (corpus : String) (s : String) : Nat :=
  s.data.foldl (fun acc c => acc * corpus.length + corpus.data.indexOf c) 0

/-- `parse_radix_arg` from `src/main.rs`: a 3-character configuration string
selects the three modes; anything else is a descriptive error. -/
def parse_radix_arg (arg : String) : Except String RadixSettings :=
  match arg.data with
  | [s, n, l] =>
    match (if s = 'a' then Except.ok RadixSymbols.All
           else if s = 'u' then Except.ok RadixSymbols.UnixSafe
           else if s = 'd' then Except.ok RadixSymbols.Disabled
           else Except.error "first character of radix arg must be one of these: \x7ba,u,d\x7d") with
    | Except.error e => Except.error e
    | Except.ok symbols =>
      match (if n = 'a' then Except.ok RadixNumbers.All
             else if n = 'd' then Except.ok RadixNumbers.Disabled
             else Except.error "second character of radix arg must be one of these: \x7ba,d\x7d") with
      | Except.error e => Except.error e
      | Except.ok numbers =>
        match (if l = 'i' then Except.ok RadixLetters.Insensitive
               else if l = 's' then Except.ok RadixLetters.Sensitive
               else if l = 'o' then Except.ok RadixLetters.SensitiveOrdered
               else Except.error "third character of radix arg must be one of these: \x7bi,s,o\x7d") with
        | Except.error e => Except.error e
        | Except.ok letters => Except.ok (RadixSettings.new symbols numbers letters)
  | _ => Except.error "must be 3 characters long"

/-- `u8::is_ascii_control` on a byte modelled as `Nat`: below `0x20` or `0x7F`. -/
def isAsciiControl (b : Nat) : Bool :=
  b < 0x20 || b == 0x7F

/-- Rust `Iterator::position`: index of the first element satisfying `p`. -/
def position (p : α → Bool) : List α → Option Nat
  | [] => none
  | a :: t => if p a then some 0 else (position p t).map (· + 1)

/-- Rust `Iterator::rposition`: index (from the front) of the last element
satisfying `p`. -/
def rposition (p : α → Bool) (l : List α) : Option Nat :=
  (position p l.reverse).map (fun k => l.length - 1 - k)

/-- `trim_ascii_control` for byte slices from `src/asciinum.rs`: slice from
the first to the last non-control byte, inclusive; empty when every byte is
an ASCII control byte.  The unreachable `.expect` branch is modelled by `[]`. -/
def trim_ascii_control (l : List Nat) : List Nat :=
  match position (fun x => !isAsciiControl x) l with
  | none => []
  | some i =>
    match rposition (fun x => !isAsciiControl x) l with
    | none => []
    | some j => (l.take (j + 1)).drop i

/-- Spec-side trimming: drop ASCII control bytes from the front, then from
the back (the contiguous span from the first to the last non-control byte). -/
def trimSpec (l : List Nat) : List Nat :=
  ((l.dropWhile isAsciiControl).reverse.dropWhile isAsciiControl).reverse

/-- Spec-side table for the first configuration character. -/
def symModeOfChar (c : Char) : Option RadixSymbols :=
  if c = 'a' then some RadixSymbols.All
  else if c = 'u' then some RadixSymbols.UnixSafe
  else if c = 'd' then some RadixSymbols.Disabled
  else none

/-- Spec-side table for the second configuration character. -/
def numModeOfChar (c : Char) : Option RadixNumbers :=
  if c = 'a' then some RadixNumbers.All
  else if c = 'd' then some RadixNumbers.Disabled
  else none

/-- Spec-side table for the third configuration character. -/
def letModeOfChar (c : Char) : Option RadixLetters :=
  if c = 'i' then some RadixLetters.Insensitive
  else if c = 's' then some RadixLetters.Sensitive
  else if c = 'o' then some RadixLetters.SensitiveOrdered
  else none

/-! ## Lemmas about the digit-extraction iterator -/

lemma runIter_none (fuel b : Nat) : runIter fuel ⟨none, b⟩ = [] := by
  cases fuel <;> simp [runIter, BaseConvertIter.next]

lemma next_of_lt {n b : Nat} (h : n < b) :
    BaseConvertIter.next ⟨some n, b⟩ = (some n, ⟨none, b⟩) := by
  simp [BaseConvertIter.next, h]

lemma next_of_ge {n b : Nat} (hb : 0 < b) (h : ¬ n < b) :
    BaseConvertIter.next ⟨some n, b⟩ = (some (n % b), ⟨some (n / b), b⟩) := by
  have h1 : n - n % b = b * (n / b) := Nat.sub_eq_of_eq_add (Nat.div_add_mod n b).symm
  simp only [BaseConvertIter.next, h, if_false]
  rw [h1, Nat.mul_div_cancel_left _ hb]

lemma runIter_some_eq {base : Nat} (hb : 2 ≤ base) :
    ∀ fuel n, n < fuel →
      runIter fuel ⟨some n, base⟩ = if n = 0 then [0] else Nat.digits base n := by
  intro fuel
  induction fuel with
  | zero => intro n hn; omega
  | succ f ih =>
    intro n hn
    by_cases hlt : n < base
    · rw [runIter, next_of_lt hlt]
      simp only [runIter_none]
      by_cases h0 : n = 0
      · simp [h0]
      · rw [if_neg h0, Nat.digits_def' (by omega : 1 < base) (by omega : 0 < n),
          Nat.mod_eq_of_lt hlt, Nat.div_eq_of_lt hlt, Nat.digits_zero]
    · have hpos : 0 < n := by omega
      have hdiv_lt : n / base < n := Nat.div_lt_self hpos (by omega)
      have hdiv_pos : 1 ≤ n / base := (Nat.one_le_div_iff (by omega)).mpr (by omega)
      rw [runIter, next_of_ge (by omega) hlt]
      simp only
      rw [ih (n / base) (by omega), if_neg (by omega),
        if_neg (by omega : ¬ n = 0),
        Nat.digits_def' (by omega : 1 < base) hpos]

lemma baseConvertList_eq {n base : Nat} (hb : 2 ≤ base) :
    baseConvertList n base = if n = 0 then [0] else Nat.digits base n :=
  runIter_some_eq hb (n + 1) n (Nat.lt_succ_self n)

lemma baseConvertList_ne_nil {n base : Nat} (hb : 2 ≤ base) :
    baseConvertList n base ≠ [] := by
  rw [baseConvertList_eq hb]
  split
  · simp
  · exact Nat.digits_ne_nil_iff_ne_zero.mpr (by assumption)

lemma mem_baseConvertList_lt {n base d : Nat} (hb : 2 ≤ base)
    (hd : d ∈ baseConvertList n base) : d < base := by
  rw [baseConvertList_eq hb] at hd
  split at hd
  · simp at hd; omega
  · exact Nat.digits_lt_base (by omega) hd

lemma baseConvertList_length {n base : Nat} (hb : 2 ≤ base) :
    (baseConvertList n base).length = if n = 0 then 1 else Nat.log base n + 1 := by
  rw [baseConvertList_eq hb]
  by_cases h0 : n = 0
  · simp [h0]
  · rw [if_neg h0, if_neg h0, Nat.digits_len base n (by omega) h0]

lemma stepN_none (k b : Nat) : BaseConvertIter.stepN k ⟨none, b⟩ = ⟨none, b⟩ := by
  induction k with
  | zero => rfl
  | succ m ih => rw [BaseConvertIter.stepN]; simpa [BaseConvertIter.next] using ih

lemma stepN_reaches_none {base : Nat} (hb : 2 ≤ base) :
    ∀ fuel n, n < fuel → (BaseConvertIter.stepN fuel ⟨some n, base⟩).number = none := by
  intro fuel
  induction fuel with
  | zero => intro n hn; omega
  | succ f ih =>
    intro n hn
    by_cases hlt : n < base
    · rw [BaseConvertIter.stepN, next_of_lt hlt]
      simp [stepN_none]
    · have hpos : 0 < n := by omega
      have hdiv_lt : n / base < n := Nat.div_lt_self hpos (by omega)
      rw [BaseConvertIter.stepN, next_of_ge (by omega) hlt]
      exact ih (n / base) (by omega)

lemma convert_data (c : AsciiConverter) (v : Nat) :
    (c.convert v).data =
      ((baseConvertList v c.corpus.length).map
        (fun d => c.corpus.data.getD d ' ')).reverse := rfl

lemma convert_length_eq (c : AsciiConverter) (v : Nat) :
    (c.convert v).length = (baseConvertList v c.corpus.length).length := by
  show (c.convert v).data.length = _
  rw [convert_data]
  simp

lemma log_succ_eq_clog (b v : Nat) (hb : 2 ≤ b) (hv : 1 ≤ v) :
    Nat.log b v + 1 = Nat.clog b (v + 1) := by
  have hb1 : 1 < b := hb
  apply le_antisymm
  · refine Nat.add_one_le_iff.mpr ((Nat.pow_lt_iff_lt_clog hb1).mp ?_)
    exact lt_of_le_of_lt (Nat.pow_log_le_self b (by omega)) (Nat.lt_succ_self v)
  · exact (Nat.le_pow_iff_clog_le hb1).mp
      (Nat.succ_le_of_lt (Nat.lt_pow_succ_log_self hb1 v))

lemma foldl_mul_add_reverse (r : Nat) :
    ∀ (ds : List Nat) (a : Nat),
      List.foldl (fun acc d => acc * r + d) a ds.reverse =
        a * r ^ ds.length + Nat.ofDigits r ds := by
  intro ds
  induction ds with
  | nil => intro a; simp [Nat.ofDigits]
  | cons d t ih =>
    intro a
    rw [List.reverse_cons, List.foldl_append, ih, Nat.ofDigits_cons]
    simp only [List.foldl, List.length_cons]
    ring

lemma foldl_indexOf_eq (r : Nat) (cd : List Char) :
    ∀ (ds : List Nat) (a : Nat), (∀ d ∈ ds, cd.indexOf (cd.getD d ' ') = d) →
      List.foldl (fun acc c => acc * r + cd.indexOf c) a
          (ds.map (fun d => cd.getD d ' ')) =
        List.foldl (fun acc d => acc * r + d) a ds := by
  intro ds
  induction ds with
  | nil => intro a _; rfl
  | cons d t ih =>
    intro a H
    simp only [List.map_cons, List.foldl_cons]
    rw [H d (by simp), ih _ (fun x hx => H x (by simp [hx]))]

lemma decode_convert (corpus : String) (hr : 2 ≤ corpus.length)
    (hnd : corpus.data.Nodup) (v : Nat) :
    decodeString corpus ((AsciiConverter.mk corpus).convert v) = v := by
  have hdl : ∀ d ∈ baseConvertList v corpus.length, d < corpus.length :=
    fun d hd => mem_baseConvertList_lt hr hd
  rw [decodeString, convert_data, ← List.map_reverse]
  rw [foldl_indexOf_eq corpus.length corpus.data _ 0 ?_]
  · rw [foldl_mul_add_reverse, zero_mul, zero_add, baseConvertList_eq hr]
    by_cases h0 : v = 0
    · simp [h0, Nat.ofDigits]
    · rw [if_neg h0]
      exact Nat.ofDigits_digits corpus.length v
  · intro d hd
    rw [List.mem_reverse] at hd
    have hdr : d < corpus.data.length := hdl d hd
    rw [List.getD_eq_getElem corpus.data ' ' hdr, List.indexOf_getElem hnd d hdr]

/-! ## Lemmas about the built corpora -/

lemma corpus_len_nodup (s : RadixSettings) :
    2 ≤ s.corpus.length ∧ s.corpus.data.Nodup := by
  obtain ⟨sy, nu, le⟩ := s
  cases sy <;> cases nu <;> cases le <;>
    exact ⟨by decide, by decide⟩

/-! ## Claim theorems -/

/-- C2: for every option triple, the built corpus is exactly the
concatenation symbols-block ++ digits-block ++ letters-block in that fixed
order, with the blocks' contents as demanded by the spec (All symbols: the
exact 32-character punctuation set; UnixSafe: that set minus `/`; digits
`0123456789`; letters `a..z`, `A..Za..z`, or interleaved `AaBb..Zz`). -/
theorem corpus_is_block_concat (s : RadixSettings) :
    s.corpus =
      symbolsBlockSpec s.symbols ++ numbersBlockSpec s.numbers ++
        lettersBlockSpec s.letters ∧
      (symbolsBlockSpec RadixSymbols.All).length = 32 ∧
      (symbolsBlockSpec RadixSymbols.UnixSafe).length = 31 ∧
      (symbolsBlockSpec RadixSymbols.Disabled).length = 0 := by
  refine ⟨?_, by decide, by decide, by decide⟩
  obtain ⟨sy, nu, le⟩ := s
  cases sy <;> cases nu <;> cases le <;> decide

/-- C5: for every valid option triple, the built corpus has length at least 2
and pairwise-distinct characters. -/
theorem corpus_len_two_le_and_nodup (s : RadixSettings) :
    2 ≤ s.corpus.length ∧ s.corpus.data.Nodup :=
  corpus_len_nodup s

/-- C6: with radix at least 2, the digit extraction terminates on every
128-bit value: a division step strictly decreases the remaining value, a
value below the radix is emitted as the final digit (the state becomes
`none`), the iterator state is drained to `none` within `v + 1` steps, and
the digit stream is independent of any sufficiently large fuel, so the
conversion is total on its valid domain. -/
theorem iter_terminates (base : Nat) (hb : 2 ≤ base) :
    (∀ n, base ≤ n →
      (BaseConvertIter.next ⟨some n, base⟩).2.number = some (n / base) ∧
        n / base < n) ∧
    (∀ n, n < base →
      BaseConvertIter.next ⟨some n, base⟩ = (some n, ⟨none, base⟩)) ∧
    (∀ v, v < 2 ^ 128 →
      (BaseConvertIter.stepN (v + 1) ⟨some v, base⟩).number = none) ∧
    (∀ v fuel, v < fuel →
      runIter fuel (BaseConvertIter.new v base) = baseConvertList v base) := by
  refine ⟨?_, ?_, ?_, ?_⟩
  · intro n hn
    rw [next_of_ge (by omega) (by omega)]
    exact ⟨rfl, Nat.div_lt_self (by omega) (by omega)⟩
  · intro n hn
    exact next_of_lt hn
  · intro v _
    exact stepN_reaches_none hb (v + 1) v (Nat.lt_succ_self v)
  · intro v fuel hf
    rw [BaseConvertIter.new, runIter_some_eq hb fuel v hf,
      ← baseConvertList_eq hb]

/-- Witness for C6 at `base = 2`, `v = 5`. -/
theorem iter_terminates_witness :
    (BaseConvertIter.stepN 6 ⟨some 5, 2⟩).number = none :=
  (iter_terminates 2 (by decide)).2.2.1 5 (by norm_num)

/-- C1: for every corpus produced by the Alphabet Builder and every 128-bit
value `v`, mapping each character of `convert corpus v` back to its corpus
index and evaluating positionally (most significant first) in base
`corpus.length` recovers `v`, and every output character occurs in the
corpus. -/
theorem convert_roundtrip (st : RadixSettings) (v : Nat) (_hv : v < 2 ^ 128) :
    decodeString st.corpus ((AsciiConverter.new st).convert v) = v ∧
      ∀ c ∈ ((AsciiConverter.new st).convert v).data, c ∈ st.corpus.data := by
  obtain ⟨hr, hnd⟩ := corpus_len_nodup st
  refine ⟨decode_convert st.corpus hr hnd v, ?_⟩
  intro c hc
  rw [convert_data, List.mem_reverse] at hc
  simp only [AsciiConverter.new] at hc
  obtain ⟨d, hd, rfl⟩ := List.mem_map.mp hc
  have hdr : d < st.corpus.data.length := mem_baseConvertList_lt hr hd
  rw [List.getD_eq_getElem _ _ hdr]
  exact List.getElem_mem hdr

/-- Witness for C1: the default-letters corpus at `v = 123`. -/
theorem convert_roundtrip_witness :
    decodeString
        (RadixSettings.new RadixSymbols.Disabled RadixNumbers.All
          RadixLetters.Insensitive).corpus
        ((AsciiConverter.new
          (RadixSettings.new RadixSymbols.Disabled RadixNumbers.All
            RadixLetters.Insensitive)).convert 123) = 123 :=
  (convert_roundtrip
    (RadixSettings.new RadixSymbols.Disabled RadixNumbers.All
      RadixLetters.Insensitive) 123 (by norm_num)).1

/-- C3: for every corpus of length at least 2 and every 128-bit value `v`,
the output length of `convert` is `⌈log_r (v+1)⌉` (as `Nat.clog`), except
that `v = 0` yields length exactly 1. -/
theorem convert_length_clog (corpus : String) (hr : 2 ≤ corpus.length)
    (v : Nat) (_hv : v < 2 ^ 128) :
    ((AsciiConverter.mk corpus).convert v).length =
      if v = 0 then 1 else Nat.clog corpus.length (v + 1) := by
  rw [convert_length_eq, baseConvertList_length hr]
  by_cases h0 : v = 0
  · simp [h0]
  · rw [if_neg h0, if_neg h0, log_succ_eq_clog corpus.length v hr (by omega)]

/-- Witness for C3 at the two-character corpus `ab` and `v = 5`. -/
theorem convert_length_clog_witness :
    ((AsciiConverter.mk "ab").convert 5).length =
      if (5 : Nat) = 0 then 1 else Nat.clog ("ab" : String).length (5 + 1) :=
  convert_length_clog "ab" (by decide) 5 (by norm_num)

/-- C7: for a fixed corpus of length at least 2, the output length of
`convert` is monotonically non-decreasing in the converted value. -/
theorem convert_length_mono (corpus : String) (hr : 2 ≤ corpus.length)
    (v₁ v₂ : Nat) (h : v₁ ≤ v₂) (_hv : v₂ < 2 ^ 128) :
    ((AsciiConverter.mk corpus).convert v₁).length ≤
      ((AsciiConverter.mk corpus).convert v₂).length := by
  rw [convert_length_eq, convert_length_eq, baseConvertList_length hr,
    baseConvertList_length hr]
  by_cases h1 : v₁ = 0
  · rw [if_pos h1]
    split <;> omega
  · rw [if_neg h1, if_neg (by omega)]
    have := Nat.log_mono_right (b := corpus.length) h
    omega

/-- Witness for C7 at the two-character corpus `ab`, `v₁ = 3`, `v₂ = 9`. -/
theorem convert_length_mono_witness :
    ((AsciiConverter.mk "ab").convert 3).length ≤
      ((AsciiConverter.mk "ab").convert 9).length :=
  convert_length_mono "ab" (by decide) 3 9 (by norm_num) (by norm_num)

/-- C4: concrete fixtures: lowercase-only corpus converts 0 to `a`, and the
36-character digits-plus-lowercase corpus converts `2 ^ 128 - 1` to
`f5lxx1zz5pnorynqglhzmsp33`. -/
theorem convert_fixtures :
    (AsciiConverter.new (RadixSettings.new RadixSymbols.Disabled
        RadixNumbers.Disabled RadixLetters.Insensitive)).convert 0 = "a" ∧
      (AsciiConverter.new (RadixSettings.new RadixSymbols.Disabled
        RadixNumbers.All RadixLetters.Insensitive)).convert (2 ^ 128 - 1) =
          "f5lxx1zz5pnorynqglhzmsp33" := by
  constructor
  · decide
  · have hdig : baseConvertList (2 ^ 128 - 1) 36 =
        [3, 3, 25, 28, 22, 35, 17, 21, 16, 26, 23, 34, 27, 24, 23, 25, 5,
          35, 35, 1, 33, 33, 21, 5, 15] := by
      rw [baseConvertList_eq (by norm_num), if_neg (by norm_num)]
      have h1 : (2 : ℕ) ^ 128 - 1 = Nat.ofDigits 36
          [3, 3, 25, 28, 22, 35, 17, 21, 16, 26, 23, 34, 27, 24, 23, 25, 5,
            35, 35, 1, 33, 33, 21, 5, 15] := by decide
      rw [h1, Nat.digits_ofDigits 36 (by norm_num) _ (by decide)
        (by intro h; show (15 : Nat) ≠ 0; decide)]
    show String.mk _ = _
    rw [show (AsciiConverter.new (RadixSettings.new RadixSymbols.Disabled
        RadixNumbers.All RadixLetters.Insensitive)).corpus.length = 36 from rfl,
      hdig]
    decide

/-- C9: for every Alphabet-Builder corpus and every value `v ≥ 1`, the output
of `convert` never begins with the character at corpus index 0 (the leading
digit is nonzero); only `v = 0` produces that character (as the whole
output). -/
theorem convert_no_leading_zero (st : RadixSettings) (v : Nat)
    (hv1 : 1 ≤ v) (hv : v < 2 ^ 128) :
    ((AsciiConverter.new st).convert v).data.head? ≠
        some (st.corpus.data.getD 0 ' ') ∧
      (AsciiConverter.new st).convert 0 =
        String.mk [st.corpus.data.getD 0 ' '] := by
  obtain ⟨hr, hnd⟩ := corpus_len_nodup st
  have hlen : st.corpus.data.length = st.corpus.length := rfl
  constructor
  · rw [convert_data, List.head?_reverse, List.getLast?_map]
    simp only [AsciiConverter.new]
    rw [baseConvertList_eq hr, if_neg (by omega)]
    have hne : Nat.digits st.corpus.length v ≠ [] :=
      Nat.digits_ne_nil_iff_ne_zero.mpr (by omega)
    rw [List.getLast?_eq_getLast _ hne]
    intro hcontra
    simp only [Option.map_some', Option.some.injEq] at hcontra
    have hlast0 : (Nat.digits st.corpus.length v).getLast hne ≠ 0 :=
      Nat.getLast_digit_ne_zero st.corpus.length (by omega)
    have hlastlt : (Nat.digits st.corpus.length v).getLast hne <
        st.corpus.data.length := by
      rw [hlen]
      exact Nat.digits_lt_base (by omega) (List.getLast_mem hne)
    rw [List.getD_eq_getElem _ _ hlastlt,
      List.getD_eq_getElem _ _ (by omega : 0 < st.corpus.data.length)]
      at hcontra
    have := congrArg (st.corpus.data.indexOf ·) hcontra
    simp only [List.indexOf_getElem hnd] at this
    exact hlast0 this
  · have h0 : baseConvertList 0 st.corpus.length = [0] := by
      rw [baseConvertList_eq hr]
      simp
    calc (AsciiConverter.new st).convert 0
        = String.mk (((baseConvertList 0 st.corpus.length).map
            (fun d => st.corpus.data.getD d ' ')).reverse) := rfl
      _ = String.mk [st.corpus.data.getD 0 ' '] := by rw [h0]; rfl

/-- Witness for C9: default-letters corpus at `v = 1` does not start with
`0`, the corpus character at index 0. -/
theorem convert_no_leading_zero_witness :
    ((AsciiConverter.new
        (RadixSettings.new RadixSymbols.Disabled RadixNumbers.All
          RadixLetters.Insensitive)).convert 1).data.head? ≠
      some ((RadixSettings.new RadixSymbols.Disabled RadixNumbers.All
        RadixLetters.Insensitive).corpus.data.getD 0 ' ') :=
  (convert_no_leading_zero
    (RadixSettings.new RadixSymbols.Disabled RadixNumbers.All
      RadixLetters.Insensitive) 1 (by norm_num) (by norm_num)).1

/-- C8: `parse_radix_arg` accepts exactly the 3-character strings whose
characters lie in the allowed sets (`a`/`u`/`d`, `a`/`d`, `i`/`s`/`o`),
returning the corresponding mode triple, and rejects everything else with a
descriptive error value (it is a total function, never a crash). -/
theorem parse_radix_arg_spec (arg : String) :
    ((∃ st, parse_radix_arg arg = Except.ok st) ↔
      (∃ s n l, arg.data = [s, n, l] ∧ (s = 'a' ∨ s = 'u' ∨ s = 'd') ∧
        (n = 'a' ∨ n = 'd') ∧ (l = 'i' ∨ l = 's' ∨ l = 'o'))) ∧
    (∀ s n l, arg.data = [s, n, l] →
      ∀ sm nm lm, symModeOfChar s = some sm → numModeOfChar n = some nm →
        letModeOfChar l = some lm →
        parse_radix_arg arg = Except.ok (RadixSettings.new sm nm lm)) ∧
    ((¬ ∃ s n l, arg.data = [s, n, l] ∧ (s = 'a' ∨ s = 'u' ∨ s = 'd') ∧
        (n = 'a' ∨ n = 'd') ∧ (l = 'i' ∨ l = 's' ∨ l = 'o')) →
      ∃ e, parse_radix_arg arg = Except.error e) := by
  rcases harg : arg.data with _ | ⟨s, _ | ⟨n, _ | ⟨l, _ | ⟨c4, t⟩⟩⟩⟩
  · have herr : ∃ e, parse_radix_arg arg = Except.error e :=
      ⟨"must be 3 characters long", by simp only [parse_radix_arg, harg]⟩
    refine ⟨by simp [parse_radix_arg, harg], by simp, fun _ => herr⟩
  · have herr : ∃ e, parse_radix_arg arg = Except.error e :=
      ⟨"must be 3 characters long", by simp only [parse_radix_arg, harg]⟩
    refine ⟨by simp [parse_radix_arg, harg], by simp, fun _ => herr⟩
  · have herr : ∃ e, parse_radix_arg arg = Except.error e :=
      ⟨"must be 3 characters long", by simp only [parse_radix_arg, harg]⟩
    refine ⟨by simp [parse_radix_arg, harg], by simp, fun _ => herr⟩
  · have hok : ∀ sm nm lm, symModeOfChar s = some sm →
        numModeOfChar n = some nm → letModeOfChar l = some lm →
        parse_radix_arg arg = Except.ok (RadixSettings.new sm nm lm) := by
      intro sm nm lm hsm hnm hlm
      simp only [symModeOfChar] at hsm
      simp only [numModeOfChar] at hnm
      simp only [letModeOfChar] at hlm
      split_ifs at hsm hnm hlm <;>
        first
          | exact Option.noConfusion hsm
          | exact Option.noConfusion hnm
          | exact Option.noConfusion hlm
          | (rw [Option.some.injEq] at hsm hnm hlm
             subst hsm
             subst hnm
             subst hlm
             subst_vars
             simp [parse_radix_arg, harg])
    have hnotok : ∀ st, ((¬ (s = 'a' ∨ s = 'u' ∨ s = 'd')) ∨
        (¬ (n = 'a' ∨ n = 'd')) ∨ (¬ (l = 'i' ∨ l = 's' ∨ l = 'o'))) →
        parse_radix_arg arg ≠ Except.ok st := by
      intro st hbad hst
      simp only [parse_radix_arg, harg] at hst
      rcases hbad with hb | hb | hb <;> split_ifs at hst <;> simp_all
    refine ⟨⟨?_, ?_⟩, ?_, ?_⟩
    · rintro ⟨st, hst⟩
      by_cases hs : s = 'a' ∨ s = 'u' ∨ s = 'd'
      · by_cases hn : n = 'a' ∨ n = 'd'
        · by_cases hl : l = 'i' ∨ l = 's' ∨ l = 'o'
          · exact ⟨s, n, l, rfl, hs, hn, hl⟩
          · exact absurd hst (hnotok st (Or.inr (Or.inr hl)))
        · exact absurd hst (hnotok st (Or.inr (Or.inl hn)))
      · exact absurd hst (hnotok st (Or.inl hs))
    · rintro ⟨s2, n2, l2, heq, hs, hn, hl⟩
      simp only [List.cons.injEq, and_true] at heq
      obtain ⟨rfl, rfl, rfl⟩ := heq
      rcases hs with rfl | rfl | rfl <;> rcases hn with rfl | rfl <;>
        rcases hl with rfl | rfl | rfl <;>
        exact ⟨_, hok _ _ _ rfl rfl rfl⟩
    · intro s2 n2 l2 heq sm nm lm hsm hnm hlm
      simp only [List.cons.injEq, and_true] at heq
      obtain ⟨rfl, rfl, rfl⟩ := heq
      exact hok sm nm lm hsm hnm hlm
    · intro hbad
      cases hpe : parse_radix_arg arg with
      | error e => exact ⟨e, rfl⟩
      | ok st =>
        exfalso
        by_cases hs : s = 'a' ∨ s = 'u' ∨ s = 'd'
        · by_cases hn : n = 'a' ∨ n = 'd'
          · by_cases hl : l = 'i' ∨ l = 's' ∨ l = 'o'
            · exact hbad ⟨s, n, l, rfl, hs, hn, hl⟩
            · exact hnotok st (Or.inr (Or.inr hl)) hpe
          · exact hnotok st (Or.inr (Or.inl hn)) hpe
        · exact hnotok st (Or.inl hs) hpe
  · have herr : ∃ e, parse_radix_arg arg = Except.error e :=
      ⟨"must be 3 characters long", by simp only [parse_radix_arg, harg]⟩
    refine ⟨by simp [parse_radix_arg, harg], by simp, fun _ => herr⟩

/-- Witness for C8: `aai` parses to (All, All, Insensitive). -/
theorem parse_radix_arg_spec_witness :
    parse_radix_arg "aai" =
      Except.ok (RadixSettings.new RadixSymbols.All RadixNumbers.All
        RadixLetters.Insensitive) :=
  (parse_radix_arg_spec "aai").2.1 'a' 'a' 'i' (by decide) RadixSymbols.All
    RadixNumbers.All RadixLetters.Insensitive rfl rfl rfl

/-! ## Lemmas about `position` and control trimming -/

lemma position_none_iff (p : α → Bool) :
    ∀ l : List α, position p l = none ↔ ∀ x ∈ l, p x = false := by
  intro l
  induction l with
  | nil => simp [position]
  | cons a t ih =>
    by_cases h : p a
    · simp [position, h]
    · simp [position, h, ih]

lemma position_getElem_true (p : α → Bool) :
    ∀ (l : List α) (i : Nat), position p l = some i →
      ∃ a, l[i]? = some a ∧ p a = true := by
  intro l
  induction l with
  | nil => intro i h; simp [position] at h
  | cons a t ih =>
    intro i h
    by_cases hp : p a
    · simp only [position, if_pos hp, Option.some.injEq] at h
      subst h
      exact ⟨a, List.getElem?_cons_zero, hp⟩
    · simp only [position, if_neg hp, Option.map_eq_some'] at h
      obtain ⟨i', hi', rfl⟩ := h
      obtain ⟨b, hb, hpb⟩ := ih i' hi'
      refine ⟨b, ?_, hpb⟩
      rw [List.getElem?_cons_succ]
      exact hb

lemma position_lt_length (p : α → Bool) (l : List α) (i : Nat)
    (h : position p l = some i) : i < l.length := by
  obtain ⟨a, ha, _⟩ := position_getElem_true p l i h
  exact (List.getElem?_eq_some_iff.mp ha).1

lemma dropWhile_eq_drop_position (p : α → Bool) :
    ∀ (l : List α) (i : Nat), position (fun x => !p x) l = some i →
      l.dropWhile p = l.drop i := by
  intro l
  induction l with
  | nil => intro i h; simp [position] at h
  | cons a t ih =>
    intro i h
    cases hpa : p a with
    | true =>
      simp only [position, hpa, Bool.not_true, Bool.false_eq_true, if_false,
        Option.map_eq_some'] at h
      obtain ⟨i', hi', rfl⟩ := h
      rw [List.dropWhile_cons_of_pos hpa, List.drop_succ_cons]
      exact ih i' hi'
    | false =>
      simp only [position, hpa, Bool.not_false, if_true,
        Option.some.injEq] at h
      subst h
      rw [List.dropWhile_cons_of_neg (by simp [hpa]), List.drop_zero]

lemma position_take (p : α → Bool) :
    ∀ (l : List α) (k m : Nat), position p l = some k → k < m →
      position p (l.take m) = some k := by
  intro l
  induction l with
  | nil => intro k m h _; simp [position] at h
  | cons a t ih =>
    intro k m h hkm
    match m with
    | 0 => omega
    | m' + 1 =>
      rw [List.take_succ_cons]
      by_cases hp : p a
      · simp only [position, if_pos hp, Option.some.injEq] at h ⊢
        exact h
      · simp only [position, if_neg hp, Option.map_eq_some'] at h ⊢
        obtain ⟨k', hk', rfl⟩ := h
        exact ⟨k', ih k' m' hk' (by omega), rfl⟩

lemma position_prefix_false (p : α → Bool) :
    ∀ (l : List α) (i : Nat), position p l = some i →
      ∀ m, m < i → ∀ b, l[m]? = some b → p b = false := by
  intro l
  induction l with
  | nil => intro i h; simp [position] at h
  | cons a t ih =>
    intro i h m hm b hb
    by_cases hp : p a
    · simp only [position, if_pos hp, Option.some.injEq] at h
      omega
    · simp only [position, if_neg hp, Option.map_eq_some'] at h
      obtain ⟨i', hi', rfl⟩ := h
      match m with
      | 0 =>
        rw [List.getElem?_cons_zero, Option.some.injEq] at hb
        subst hb
        exact Bool.eq_false_iff.mpr hp
      | m' + 1 =>
        rw [List.getElem?_cons_succ] at hb
        exact ih i' hi' m' (by omega) b hb

/-- C10: `trim_ascii_control` returns the span from the first to the last
non-control byte inclusive (equivalently: drop control bytes from the front,
then from the back), returns `[]` when the slice is empty or all-control, and
no byte `≥ 0x80` is ever an ASCII control byte (hence never trimmed). -/
theorem trim_ascii_control_spec (l : List Nat) :
    trim_ascii_control l = trimSpec l ∧
      ∀ b : Nat, 0x80 ≤ b → isAsciiControl b = false := by
  constructor
  case right =>
    intro b hb
    simp only [isAsciiControl, Bool.or_eq_false_iff, decide_eq_false_iff_not,
      Nat.not_lt, beq_eq_false_iff_ne, ne_eq]
    omega
  case left =>
    cases hpos : position (fun x => !isAsciiControl x) l with
    | none =>
      have hall : ∀ x ∈ l, isAsciiControl x = true := by
        intro x hx
        have := (position_none_iff _ l).mp hpos x hx
        simpa using this
      rw [trim_ascii_control, hpos]
      rw [trimSpec, List.dropWhile_eq_nil_iff.mpr hall]
      rfl
    | some i =>
      have hi_lt : i < l.length := position_lt_length _ l i hpos
      obtain ⟨ai, hai, hkeepi⟩ := position_getElem_true _ l i hpos
      have hrevsome : ∃ k, position (fun x => !isAsciiControl x) l.reverse = some k := by
        cases hpk : position (fun x => !isAsciiControl x) l.reverse with
        | some k => exact ⟨k, rfl⟩
        | none =>
          exfalso
          have hmem : ai ∈ l.reverse := by
            rw [List.mem_reverse]
            obtain ⟨hlt, heq⟩ := List.getElem?_eq_some_iff.mp hai
            exact heq ▸ List.getElem_mem hlt
          have := (position_none_iff _ l.reverse).mp hpk ai hmem
          rw [this] at hkeepi
          simp at hkeepi
      obtain ⟨k, hk⟩ := hrevsome
      have hk_lt : k < l.length := by
        have := position_lt_length _ l.reverse k hk
        simpa using this
      -- the first keep index cannot lie strictly after the last keep index
      have h_ik : i + k ≤ l.length - 1 := by
        by_contra hcon
        have hm : l.length - 1 - i < k := by omega
        have hpre : l.reverse[l.length - 1 - i]? = l[i]? := by
          rw [List.getElem?_reverse (by omega)]
          congr 1
          omega
        have := position_prefix_false _ l.reverse k hk (l.length - 1 - i) hm
          ai (by rw [hpre]; exact hai)
        rw [this] at hkeepi
        simp at hkeepi
      have hj : rposition (fun x => !isAsciiControl x) l =
          some (l.length - 1 - k) := by
        rw [rposition, hk]
        rfl
      rw [trim_ascii_control, hpos, hj]
      rw [trimSpec, dropWhile_eq_drop_position _ l i hpos, List.reverse_drop,
        dropWhile_eq_drop_position _ _ k
          (position_take _ l.reverse k (l.length - i) hk (by omega))]
      rw [← List.reverse_inj, List.reverse_reverse, List.reverse_drop,
        List.reverse_take, List.drop_take]
      have h1 : l.length - (l.length - 1 - k + 1) = k := by omega
      have h2 : (l.take (l.length - 1 - k + 1)).length - i =
          l.length - i - k := by
        rw [List.length_take]
        omega
      rw [h1, h2]

/-- Witness for C10 on the byte slice `[13, 32, 88, 10]` (CR, space, X, LF). -/
theorem trim_ascii_control_spec_witness :
    trim_ascii_control [13, 32, 88, 10] = trimSpec [13, 32, 88, 10] ∧
      isAsciiControl 0x80 = false :=
  ⟨(trim_ascii_control_spec [13, 32, 88, 10]).1,
    (trim_ascii_control_spec [13, 32, 88, 10]).2 0x80 (by norm_num)⟩

end Asciinum
